import Mathlib

/-!
Verification of the deployment → first-ride pipeline (`src/deployment_check.py`).

The source is a pandas/geopandas dashboard.  We shallow-embed the tabular
core: rows of `deps_with_zone` (deployments after the
`Action Type == 'deploy' and Action State == 'completed'` filter, tagged
with `deploy_idx` by `reset_index` and with a zone name by the spatial
join), ride rows, the `merge`/filter/`sort_values`/`groupby(...).first()`
chain that produces `first_rides` and `result`, the SQLite
`INSERT OR IGNORE` store, the dashboard date filter, the per-zone summary
table `spot_df`, and the `db_path` normalization.

Timestamps (`Created Time`, `ride_time`) are modelled as epoch seconds
(`Int`); pandas `.dt.date` is floor division to epoch days (`Int.fdiv`,
Python's `//`).  Missing values (`NaN` in a key or zone column) are
modelled as `none`.  pandas `merge` matches missing keys with each other
(NaN join keys compare equal in `pd.merge`; in the SQLite branch the
`astype(str)` coercion turns a missing `Uuid` into the literal string
`"nan"`, with the same effect), so the join below is plain equality on
`Option String`.
-/

namespace DeploymentEff

/-- A row of `deps_with_zone`: a completed-deploy deployment row, tagged by
`reset_index` with a unique `deploy_idx` and by `gpd.sjoin(..., how="left")`
with the (optional) containing zone's `name`. -/
structure DepRow where
  deployIdx : Nat
  uuid : Option String
  createdTime : Int
  zone : Option String
  deriving DecidableEq, Repr

/-- A row of the rides table: `Uuid`, `ride_time` (the renamed
`Created Time`), and `Vehicle Type Scooter or Bike`. -/
structure RideRow where
  uuid : Option String
  rideTime : Int
  model : String
  deriving DecidableEq, Repr

/-- A row of `merged = deps_with_zone.merge(rides[...], on="Uuid", how="left")`:
the deployment columns plus the matched ride's columns, which are missing
(`none`) on left rows with no key match. -/
structure MergedRow where
  dep : DepRow
  rideTime : Option Int
  rideModel : Option String
  deriving DecidableEq, Repr

/-- `deps_with_zone.merge(rides..., on="Uuid", how="left")`: every left row
is paired with each ride sharing its `Uuid` (pandas matches missing keys
with each other), in left-then-right order; a left row with no match is
kept once with missing ride columns. -/
def leftMergeRides (deps : List DepRow) (rides : List RideRow) : List MergedRow :=
  deps.flatMap (fun d =>
    let hits := rides.filter (fun r => r.uuid == d.uuid)
    if hits.isEmpty then [⟨d, none, none⟩]
    else hits.map (fun r => ⟨d, some r.rideTime, some r.model⟩))

/-- `merged = merged[merged["ride_time"] >= merged["Created Time"]]`:
a missing `ride_time` (`NaT`) compares false, so unmatched left rows are
dropped here as well. -/
def causalFilter (rows : List MergedRow) : List MergedRow :=
  rows.filter (fun m =>
    match m.rideTime with
    | some t => decide (m.dep.createdTime ≤ t)
    | none => false)

/-- The comparison used by `merged.sort_values("ride_time")`: ascending on
`ride_time`, missing values last. -/
def rideTimeLE (a b : MergedRow) : Bool :=
  match a.rideTime, b.rideTime with
  | some x, some y => decide (x ≤ y)
  | some _, none => true
  | none, some _ => false
  | none, none => true

/-- `rideTimeLE` as a relation, for sorting. -/
def rideLE (a b : MergedRow) : Prop := rideTimeLE a b = true

instance : DecidableRel rideLE :=
  fun a b => inferInstanceAs (Decidable (rideTimeLE a b = true))

instance : IsTotal MergedRow rideLE where
  total a b := by
    unfold rideLE rideTimeLE
    rcases a.rideTime with _ | x <;> rcases b.rideTime with _ | y <;> simp
    exact Int.le_total x y

instance : IsTrans MergedRow rideLE where
  trans a b c := by
    unfold rideLE rideTimeLE
    rcases a.rideTime with _ | x <;> rcases b.rideTime with _ | y <;>
      rcases c.rideTime with _ | z <;> simp
    exact fun h h' => Int.le_trans h h'

/-- The group keys of `groupby("deploy_idx")`: the distinct `deploy_idx`
values, in ascending order (pandas `groupby` sorts group keys). -/
def groupKeys (rows : List MergedRow) : List Nat :=
  List.insertionSort (fun a b => a ≤ b) ((rows.map (fun m => m.dep.deployIdx)).dedup)

/-- The reassigned `merged` after the causality filter: the qualifying
(deployment, ride) candidate pairs. -/
def mergedRows (deps : List DepRow) (rides : List RideRow) : List MergedRow :=
  causalFilter (leftMergeRides deps rides)

/-- `first_rides = merged.sort_values("ride_time").groupby("deploy_idx",
as_index=False).first()`: for each distinct `deploy_idx`, the first row of
the sorted order with that index.  (`sort_values` is a comparison sort on
`ride_time`; pandas `.first()` takes the first non-missing value per
column, and after `causalFilter` the ride columns of every row are present
and the deployment columns of rows sharing a `deploy_idx` coincide, so
this is the first row of the group.) -/
def firstRides (deps : List DepRow) (rides : List RideRow) : List MergedRow :=
  let sorted := List.insertionSort rideLE (mergedRows deps rides)
  (groupKeys (mergedRows deps rides)).filterMap
    (fun i => (sorted.filter (fun m => m.dep.deployIdx == i)).head?)

/-- A row of `result`: the selected/renamed columns of `first_rides`
together with `time_to_first_ride = ride_time - Created Time`. -/
structure ResRow where
  uuid : Option String
  createdTime : Int
  rideTime : Option Int
  zone : Option String
  model : Option String
  ttf : Option Int
  deriving DecidableEq, Repr

/-- Column selection and the `time_to_first_ride` subtraction applied to a
`first_rides` row (a missing operand would propagate, as `NaT` does). -/
def toResRow (m : MergedRow) : ResRow :=
  { uuid := m.dep.uuid
    createdTime := m.dep.createdTime
    rideTime := m.rideTime
    zone := m.dep.zone
    model := m.rideModel
    ttf := m.rideTime.map (fun t => t - m.dep.createdTime) }

/-- The `result` table: one row per `first_rides` row. -/
def resultTable (deps : List DepRow) (rides : List RideRow) : List ResRow :=
  (firstRides deps rides).map toResRow

/-- `Time to First Ride Hours = .dt.total_seconds().div(3600)`. -/
def ttfHours (r : ResRow) : Option ℚ :=
  r.ttf.map (fun s => (s : ℚ) / 3600)

/-- pandas `.dt.date` on an epoch-seconds timestamp: floor division to
epoch days. -/
def dateOf (t : Int) : Int := t.fdiv 86400

/-- `set(first_rides["deploy_idx"])` (as a list of indices). -/
def riddenIdxs (deps : List DepRow) (rides : List RideRow) : List Nat :=
  (firstRides deps rides).map (fun m => m.dep.deployIdx)

/-- `no_ride = deps_with_zone[~deps_with_zone["deploy_idx"].isin(ridden_idxs)]`. -/
def noRide (deps : List DepRow) (rides : List RideRow) : List DepRow :=
  deps.filter (fun d => !((riddenIdxs deps rides).contains d.deployIdx))

/-- `no_ride_count = total_deps - len(result)` (Python int subtraction). -/
def noRideCount (deps : List DepRow) (rides : List RideRow) : Int :=
  (deps.length : Int) - ((resultTable deps rides).length : Int)

/-- `deps_filtered`: deployments whose `Created Time` date lies in the
inclusive `[start_date, end_date]` range. -/
def depsFiltered (s e : Int) (deps : List DepRow) : List DepRow :=
  deps.filter (fun d =>
    decide (s ≤ dateOf d.createdTime) && decide (dateOf d.createdTime ≤ e))

/-- `result_filtered`: `result` rows whose `Deployment Time` date lies in
the inclusive `[start_date, end_date]` range. -/
def resultFiltered (s e : Int) (deps : List DepRow) (rides : List RideRow) :
    List ResRow :=
  (resultTable deps rides).filter (fun r =>
    decide (s ≤ dateOf r.createdTime) && decide (dateOf r.createdTime ≤ e))

/-- A small concrete scenario used to exercise the pipeline: the zone "A"
deployment never gets a ride, the zone "B" deployment is ridden 10 seconds
after deployment. -/
def exDeps : List DepRow :=
  [⟨0, some "uA", 0, some "A"⟩, ⟨1, some "uB", 0, some "B"⟩]

/-- The rides of the concrete scenario. -/
def exRides : List RideRow := [⟨some "uB", 10, "m"⟩]

/-!
### Record store (`INSERT OR IGNORE` into the SQLite tables)

A table is an ordered list of rows; `ID TEXT PRIMARY KEY` means an insert
whose `ID` equals the `ID` of an existing row is ignored.  The `astype`
coercions run before the insert turn every `ID` (even a missing one) into
a string, so keys are plain `String`s.  The rides table has the same key
discipline; we embed the deployments table, whose columns are those of
`insert_dep_sql`.
-/

/-- A row of the `deployments` SQLite table (`TEXT` → `String`,
`REAL` → `ℚ`, `INTEGER` → `Int`). -/
structure DepRecord where
  unnamed0 : String
  country : String
  city : String
  createdDate : String
  createdTime : String
  actionType : String
  chargerId : String
  name : String
  actionState : String
  vehicleId : String
  uuid : String
  failureReason : String
  id : String
  chargerLat : ℚ
  chargerLng : ℚ
  countVehicles : Int
  deriving DecidableEq, Repr

/-- Whether the table already holds a row with primary key `i`. -/
def depKeyExists (t : List DepRecord) (i : String) : Bool :=
  t.any (fun x => x.id == i)

/-- One `INSERT OR IGNORE` statement: a row whose `ID` already exists is
silently skipped, otherwise the row is appended. -/
def insertDep (t : List DepRecord) (r : DepRecord) : List DepRecord :=
  if depKeyExists t r.id then t else t ++ [r]

/-- `conn.executemany(insert_dep_sql, rows)`: the statements run in order,
each seeing the effect of the previous ones. -/
def insertDeps (t : List DepRecord) (rs : List DepRecord) : List DepRecord :=
  rs.foldl insertDep t

/-!
### Dashboard aggregation (`spot_df`, `model_df`, KPI metrics)
-/

/-- pandas `.mean()` over a column (the column's present values). -/
def listMean (xs : List ℚ) : ℚ := xs.sum / (xs.length : ℚ)

/-- `spot_avg = result_filtered.groupby("Deployment Spot")[hours].mean()`:
one row per distinct zone name occurring in `result_filtered` (`groupby`
drops missing keys), with the group's mean hours. -/
def spotAvg (resF : List ResRow) : List (String × ℚ) :=
  ((resF.filterMap (fun r => r.zone)).dedup).map (fun z =>
    (z, listMean ((resF.filter (fun r => r.zone == some z)).filterMap ttfHours)))

/-- `spot_count = deps_filtered.groupby("name").size()`: one row per
distinct zone name occurring in `deps_filtered`, with the group size. -/
def spotCount (depsF : List DepRow) : List (String × Nat) :=
  ((depsF.filterMap (fun d => d.zone)).dedup).map (fun z =>
    (z, (depsF.filter (fun d => d.zone == some z)).length))

/-- `spot_df = spot_avg.merge(spot_count, on="Deployment Spot", how="left")`:
the rows of `spot_avg`, each annotated with the matching `spot_count`
entry when one exists (`NaN`, i.e. `none`, otherwise).  The subsequent
`sort_values("AvgTime", ascending=False)` only reorders rows and is
elided. -/
def spotDf (depsF : List DepRow) (resF : List ResRow) :
    List (String × ℚ × Option Nat) :=
  (spotAvg resF).map (fun p =>
    (p.1, p.2, ((spotCount depsF).find? (fun q => q.1 == p.1)).map (fun q => q.2)))

/-- `model_df = result_filtered.groupby("Vehicle Model")[hours].mean()`,
sorted ascending by the mean. -/
def modelDf (resF : List ResRow) : List (String × ℚ) :=
  List.insertionSort (fun a b => a.2 ≤ b.2)
    (((resF.filterMap (fun r => r.model)).dedup).map (fun v =>
      (v, listMean ((resF.filter (fun r => r.model == some v)).filterMap ttfHours))))

/-- A data-derived output element of the Dashboard page, in render order.
Purely decorative output (titles, dividers, the date-picker widgets) is
not data-derived and is elided. -/
inductive UIItem where
  | metric (label : String) (value : ℚ)
  | errorMsg (text : String)
  | histChart (hours : List ℚ)
  | modelChart (rows : List (String × ℚ))
  | spotChart (rows : List (String × ℚ × Option Nat))
  | spotTable (rows : List (String × ℚ × Option Nat))
  deriving DecidableEq, Repr

/-- The Dashboard page (`page == "📊 Dashboard"`): the three KPI metrics
are rendered from the full dataset, then the selected date range is
validated — `st.error` plus `st.stop()` on `start_date > end_date`
terminates the request — and only then are the filtered charts and the
spot table rendered. -/
def dashboardPage (deps : List DepRow) (rides : List RideRow)
    (startD endD : Int) : List UIItem :=
  [UIItem.metric "Total Deployments" ((deps.length : Int) : ℚ),
   UIItem.metric "Deployments with No Ride" ((noRideCount deps rides : ℚ)),
   UIItem.metric "Avg Time to First Ride (h)"
     (listMean ((resultTable deps rides).filterMap ttfHours))] ++
  (if endD < startD then
    [UIItem.errorMsg "❌ Start date must be before or equal to end date."]
  else
    [UIItem.histChart ((resultFiltered startD endD deps rides).filterMap ttfHours),
     UIItem.modelChart (modelDf (resultFiltered startD endD deps rides)),
     UIItem.spotChart (spotDf (depsFiltered startD endD deps)
       (resultFiltered startD endD deps rides)),
     UIItem.spotTable (spotDf (depsFiltered startD endD deps)
       (resultFiltered startD endD deps rides))])

/-!
### `db_path` handling (sidebar, lines 33–54)
-/

/-- Index of the last occurrence of `c` in `s`, `-1` when absent
(Python `str.rfind`). -/
def lastIdxAux (c : Char) : List Char → Int → Int → Int
  | [], _, acc => acc
  | x :: xs, i, acc => lastIdxAux c xs (i + 1) (if x == c then i else acc)

/-- `p.rfind(c)` on the characters of a path. -/
def lastIdx (s : List Char) (c : Char) : Int := lastIdxAux c s 0 (-1)

/-- The extension component of `os.path.splitext(p)`: the suffix from the
last dot of the final path component, provided that component has a
character other than its leading dots before that dot (so `".bashrc"` has
no extension but `"a.tar.gz"` has `".gz"`). -/
def splitextExt (p : String) : String :=
  let s := p.data
  let sepIdx := lastIdx s '/'
  let dotIdx := lastIdx s '.'
  if sepIdx < dotIdx then
    let base := (s.take dotIdx.toNat).drop (sepIdx + 1).toNat
    if base.any (fun c => c != '.') then String.mk (s.drop dotIdx.toNat) else ""
  else ""

/-- `os.path.expanduser` for the forms the dashboard's text input takes:
a bare `"~"` or a `"~/"`-anchored path is rebased at the home directory,
anything else is returned unchanged (`~user` expansion elided). -/
def expanduser (home p : String) : String :=
  match p.data with
  | ['~'] => home
  | '~' :: '/' :: rest => home ++ String.mk ('/' :: rest)
  | _ => p

/-- `if db_path and not os.path.splitext(db_path)[1]: db_path += ".db"`. -/
def normalizeDbPath (p : String) : String :=
  if p ≠ "" ∧ splitextExt p = "" then p ++ ".db" else p

/-- The sidebar `db_path` processing: expand `~`, reject a path naming an
existing directory (`st.error` + `st.stop`), then append the missing
`.db` extension.  `isDir` stands for `os.path.isdir` on the current
filesystem; the `os.makedirs` side effect is not value-relevant. -/
def processDbPath (home : String) (isDir : String → Bool) (input : String) :
    Except String String :=
  let p := expanduser home input
  if p ≠ "" ∧ isDir p then Except.error p
  else Except.ok (normalizeDbPath p)

instance : DecidableEq (Except String String) := fun a b =>
  match a, b with
  | .ok x, .ok y =>
    if h : x = y then isTrue (by rw [h]) else isFalse (by simp [h])
  | .error x, .error y =>
    if h : x = y then isTrue (by rw [h]) else isFalse (by simp [h])
  | .ok _, .error _ => isFalse (by simp)
  | .error _, .ok _ => isFalse (by simp)

/-!
### Lemmas about the first-ride matcher
-/

theorem mem_of_head? {α : Type} {l : List α} {a : α} (h : l.head? = some a) :
    a ∈ l := by
  cases l with
  | nil => simp at h
  | cons x xs => simp at h; simp [h]

theorem cons_of_head? {α : Type} {l : List α} {a : α} (h : l.head? = some a) :
    ∃ tl, l = a :: tl := by
  cases l with
  | nil => simp at h
  | cons x xs => simp at h; exact ⟨xs, by rw [h]⟩

theorem dep_mem_of_mem_leftMergeRides {deps : List DepRow} {rides : List RideRow}
    {m : MergedRow} (h : m ∈ leftMergeRides deps rides) : m.dep ∈ deps := by
  unfold leftMergeRides at h
  rw [List.mem_flatMap] at h
  obtain ⟨d, hd, hm⟩ := h
  by_cases he : (rides.filter (fun r => r.uuid == d.uuid)).isEmpty
  · simp only [he, if_pos] at hm
    simp at hm
    rw [hm]
    exact hd
  · simp only [he, if_neg, Bool.false_eq_true, not_false_iff] at hm
    rw [List.mem_map] at hm
    obtain ⟨r, _, hr⟩ := hm
    rw [← hr]
    exact hd

theorem ride_of_mem_leftMergeRides {deps : List DepRow} {rides : List RideRow}
    {m : MergedRow} (h : m ∈ leftMergeRides deps rides) {t : Int}
    (ht : m.rideTime = some t) :
    ∃ r ∈ rides, r.uuid = m.dep.uuid ∧ r.rideTime = t ∧ m.rideModel = some r.model := by
  unfold leftMergeRides at h
  rw [List.mem_flatMap] at h
  obtain ⟨d, hd, hm⟩ := h
  by_cases he : (rides.filter (fun r => r.uuid == d.uuid)).isEmpty
  · simp only [he, if_pos] at hm
    simp at hm
    rw [hm] at ht
    simp at ht
  · simp only [he, if_neg, Bool.false_eq_true, not_false_iff] at hm
    rw [List.mem_map] at hm
    obtain ⟨r, hr, hrm⟩ := hm
    rw [List.mem_filter] at hr
    refine ⟨r, hr.1, ?_, ?_, ?_⟩
    · rw [← hrm]
      exact beq_iff_eq.mp hr.2
    · rw [← hrm] at ht
      simp at ht
      exact ht
    · rw [← hrm]

theorem leftMergeRides_complete {deps : List DepRow} {rides : List RideRow}
    {d : DepRow} {r : RideRow} (hd : d ∈ deps) (hr : r ∈ rides)
    (hu : r.uuid = d.uuid) :
    (⟨d, some r.rideTime, some r.model⟩ : MergedRow) ∈ leftMergeRides deps rides := by
  unfold leftMergeRides
  rw [List.mem_flatMap]
  refine ⟨d, hd, ?_⟩
  have hrf : r ∈ rides.filter (fun r => r.uuid == d.uuid) :=
    List.mem_filter.mpr ⟨hr, beq_iff_eq.mpr hu⟩
  have hne : (rides.filter (fun r => r.uuid == d.uuid)).isEmpty = false := by
    cases hl : rides.filter (fun r => r.uuid == d.uuid) with
    | nil => rw [hl] at hrf; simp at hrf
    | cons a l => simp [hl]
  simp only [hne, Bool.false_eq_true, if_neg, not_false_iff]
  rw [List.mem_map]
  exact ⟨r, hrf, rfl⟩

theorem mem_mergedRows {deps : List DepRow} {rides : List RideRow} {m : MergedRow} :
    m ∈ mergedRows deps rides ↔
      m ∈ leftMergeRides deps rides ∧
        ∃ t, m.rideTime = some t ∧ m.dep.createdTime ≤ t := by
  unfold mergedRows causalFilter
  rw [List.mem_filter]
  constructor
  · rintro ⟨h1, h2⟩
    refine ⟨h1, ?_⟩
    cases ht : m.rideTime with
    | none => rw [ht] at h2; simp at h2
    | some t => rw [ht] at h2; exact ⟨t, rfl, by simpa using h2⟩
  · rintro ⟨h1, t, ht, hle⟩
    exact ⟨h1, by rw [ht]; simpa using hle⟩

theorem rideLE_refl (a : MergedRow) : rideLE a a := by
  unfold rideLE rideTimeLE
  cases a.rideTime <;> simp

theorem mem_firstRides {deps : List DepRow} {rides : List RideRow} {m : MergedRow}
    (h : m ∈ firstRides deps rides) : m ∈ mergedRows deps rides := by
  unfold firstRides at h
  rw [List.mem_filterMap] at h
  obtain ⟨i, _, hh⟩ := h
  have := mem_of_head? hh
  rw [List.mem_filter] at this
  exact (List.mem_insertionSort rideLE).mp this.1

theorem idx_eq_of_head? {deps : List DepRow} {rides : List RideRow} {m : MergedRow}
    {i : Nat}
    (hh : ((List.insertionSort rideLE (mergedRows deps rides)).filter
      (fun x => x.dep.deployIdx == i)).head? = some m) :
    m.dep.deployIdx = i := by
  have := mem_of_head? hh
  rw [List.mem_filter] at this
  exact beq_iff_eq.mp this.2

theorem firstRides_min {deps : List DepRow} {rides : List RideRow} {m c : MergedRow}
    (hm : m ∈ firstRides deps rides) (hc : c ∈ mergedRows deps rides)
    (hidx : c.dep.deployIdx = m.dep.deployIdx) : rideLE m c := by
  unfold firstRides at hm
  rw [List.mem_filterMap] at hm
  obtain ⟨i, _, hh⟩ := hm
  have hmi : m.dep.deployIdx = i := idx_eq_of_head? hh
  obtain ⟨tl, htl⟩ := cons_of_head? hh
  have hsorted : List.Sorted rideLE (List.insertionSort rideLE (mergedRows deps rides)) :=
    List.sorted_insertionSort rideLE (mergedRows deps rides)
  have hfsorted : List.Sorted rideLE
      ((List.insertionSort rideLE (mergedRows deps rides)).filter
        (fun x => x.dep.deployIdx == i)) :=
    List.Pairwise.filter _ hsorted
  have hcf : c ∈ (List.insertionSort rideLE (mergedRows deps rides)).filter
      (fun x => x.dep.deployIdx == i) := by
    rw [List.mem_filter]
    exact ⟨(List.mem_insertionSort rideLE).mpr hc,
      beq_iff_eq.mpr (by rw [hidx, hmi])⟩
  rw [htl] at hcf hfsorted
  rcases List.mem_cons.mp hcf with h | h
  · rw [h]; exact rideLE_refl m
  · exact List.rel_of_pairwise_cons hfsorted h

theorem groupKeys_nodup (rows : List MergedRow) : (groupKeys rows).Nodup := by
  unfold groupKeys
  exact ((List.perm_insertionSort _ _).nodup_iff).mpr (List.nodup_dedup _)

theorem mem_groupKeys {rows : List MergedRow} {i : Nat} :
    i ∈ groupKeys rows ↔ ∃ m ∈ rows, m.dep.deployIdx = i := by
  unfold groupKeys
  rw [List.mem_insertionSort, List.mem_dedup, List.mem_map]

theorem key_mem_of_mem_filterMap {β : Type} (g : β → Nat) (f : Nat → Option β)
    (hf : ∀ j m, f j = some m → g m = j) :
    ∀ (keys : List Nat), ∀ x ∈ keys.filterMap f, g x ∈ keys := by
  intro keys x hx
  rw [List.mem_filterMap] at hx
  obtain ⟨j, hj, hfj⟩ := hx
  rw [hf j x hfj]
  exact hj

theorem nodup_key_filterMap {β : Type} (g : β → Nat) (f : Nat → Option β)
    (hf : ∀ j m, f j = some m → g m = j) :
    ∀ (keys : List Nat), keys.Nodup → ((keys.filterMap f).map g).Nodup := by
  intro keys
  induction keys with
  | nil => intro; simp
  | cons j ks ih =>
    intro hnd
    rw [List.nodup_cons] at hnd
    cases hfj : f j with
    | none => rw [List.filterMap_cons_none hfj]; exact ih hnd.2
    | some m =>
      rw [List.filterMap_cons_some hfj]
      rw [List.map_cons, List.nodup_cons]
      refine ⟨?_, ih hnd.2⟩
      intro hmem
      rw [List.mem_map] at hmem
      obtain ⟨x, hx, hgx⟩ := hmem
      have : g x ∈ ks := key_mem_of_mem_filterMap g f hf ks x hx
      rw [hgx] at this
      rw [hf j m hfj] at this
      exact hnd.1 this

theorem filter_of_not_mem_keys {β : Type} (g : β → Nat) (f : Nat → Option β)
    (hf : ∀ j m, f j = some m → g m = j) (i : Nat) :
    ∀ (keys : List Nat), i ∉ keys →
      (keys.filterMap f).filter (fun m => g m == i) = [] := by
  intro keys
  induction keys with
  | nil => intro; simp
  | cons j ks ih =>
    intro hni
    rw [List.mem_cons] at hni
    push_neg at hni
    cases hfj : f j with
    | none => rw [List.filterMap_cons_none hfj]; exact ih hni.2
    | some m =>
      rw [List.filterMap_cons_some hfj]
      rw [List.filter_cons]
      have : (g m == i) = false := by
        rw [hf j m hfj]
        exact beq_false_of_ne (Ne.symm hni.1)
      simp only [this, Bool.false_eq_true, if_neg, not_false_iff]
      exact ih hni.2

theorem filter_filterMap_key {β : Type} (g : β → Nat) (f : Nat → Option β)
    (hf : ∀ j m, f j = some m → g m = j) (i : Nat) :
    ∀ (keys : List Nat), keys.Nodup → i ∈ keys →
      (keys.filterMap f).filter (fun m => g m == i) = (f i).toList := by
  intro keys
  induction keys with
  | nil => intro _ h; simp at h
  | cons j ks ih =>
    intro hnd hi
    rw [List.nodup_cons] at hnd
    rcases List.mem_cons.mp hi with rfl | hi'
    · cases hfj : f i with
      | none =>
        rw [List.filterMap_cons_none hfj]
        rw [filter_of_not_mem_keys g f hf i ks hnd.1]
        simp [hfj]
      | some m =>
        rw [List.filterMap_cons_some hfj]
        rw [List.filter_cons]
        have hgm : (g m == i) = true := beq_iff_eq.mpr (hf i m hfj)
        simp only [hgm, if_pos]
        rw [filter_of_not_mem_keys g f hf i ks hnd.1]
        simp [hfj]
    · cases hfj : f j with
      | none => rw [List.filterMap_cons_none hfj]; exact ih hnd.2 hi'
      | some m =>
        rw [List.filterMap_cons_some hfj]
        rw [List.filter_cons]
        have hne : j ≠ i := by
          intro h; rw [h] at hnd; exact hnd.1 hi'
        have : (g m == i) = false := by
          rw [hf j m hfj]
          exact beq_false_of_ne hne
        simp only [this, Bool.false_eq_true, if_neg, not_false_iff]
        exact ih hnd.2 hi'

theorem firstRides_eq (deps : List DepRow) (rides : List RideRow) :
    firstRides deps rides =
      (groupKeys (mergedRows deps rides)).filterMap
        (fun i => ((List.insertionSort rideLE (mergedRows deps rides)).filter
          (fun m => m.dep.deployIdx == i)).head?) := rfl

theorem pick_isSome_of_mem {deps : List DepRow} {rides : List RideRow} {i : Nat}
    (hi : i ∈ groupKeys (mergedRows deps rides)) :
    ∃ m, ((List.insertionSort rideLE (mergedRows deps rides)).filter
      (fun m => m.dep.deployIdx == i)).head? = some m := by
  rw [mem_groupKeys] at hi
  obtain ⟨m, hm, hidx⟩ := hi
  have hmf : m ∈ (List.insertionSort rideLE (mergedRows deps rides)).filter
      (fun m => m.dep.deployIdx == i) :=
    List.mem_filter.mpr ⟨(List.mem_insertionSort rideLE).mpr hm, beq_iff_eq.mpr hidx⟩
  cases hl : (List.insertionSort rideLE (mergedRows deps rides)).filter
      (fun m => m.dep.deployIdx == i) with
  | nil => rw [hl] at hmf; simp at hmf
  | cons a l => exact ⟨a, rfl⟩

theorem firstRides_filter_count {deps : List DepRow} {rides : List RideRow} {i : Nat}
    (hi : i ∈ groupKeys (mergedRows deps rides)) :
    ((firstRides deps rides).filter (fun m => m.dep.deployIdx == i)).length = 1 := by
  rw [firstRides_eq]
  rw [filter_filterMap_key (fun m => m.dep.deployIdx) _
    (fun j m hm => idx_eq_of_head? hm) i _ (groupKeys_nodup _) hi]
  obtain ⟨m, hm⟩ := pick_isSome_of_mem hi
  rw [hm]
  rfl

theorem firstRides_idx_nodup (deps : List DepRow) (rides : List RideRow) :
    ((firstRides deps rides).map (fun m => m.dep.deployIdx)).Nodup := by
  rw [firstRides_eq]
  exact nodup_key_filterMap (fun m => m.dep.deployIdx) _
    (fun j m hm => idx_eq_of_head? hm) _ (groupKeys_nodup _)

/-- The central fact about the matcher: a deployment with at least one
qualifying candidate gets exactly one `first_rides` row, and that row's
ride is a qualifying candidate of minimum `ride_time`. -/
theorem firstRides_spec (deps : List DepRow) (rides : List RideRow) (d : DepRow)
    (hd : d ∈ deps) (hnd : (deps.map (fun x => x.deployIdx)).Nodup)
    (hq : ∃ r ∈ rides, r.uuid = d.uuid ∧ d.createdTime ≤ r.rideTime) :
    ((firstRides deps rides).filter
      (fun m => m.dep.deployIdx == d.deployIdx)).length = 1 ∧
    ∀ m ∈ firstRides deps rides, m.dep.deployIdx = d.deployIdx →
      m.dep = d ∧
      ∃ r ∈ rides, r.uuid = d.uuid ∧ d.createdTime ≤ r.rideTime ∧
        m.rideTime = some r.rideTime ∧
        ∀ r' ∈ rides, r'.uuid = d.uuid → d.createdTime ≤ r'.rideTime →
          r.rideTime ≤ r'.rideTime := by
  obtain ⟨r0, hr0, hu0, ht0⟩ := hq
  have hrow0 : (⟨d, some r0.rideTime, some r0.model⟩ : MergedRow) ∈ mergedRows deps rides :=
    mem_mergedRows.mpr ⟨leftMergeRides_complete hd hr0 hu0, r0.rideTime, rfl, ht0⟩
  have hkey : d.deployIdx ∈ groupKeys (mergedRows deps rides) :=
    mem_groupKeys.mpr ⟨_, hrow0, rfl⟩
  refine ⟨firstRides_filter_count hkey, ?_⟩
  intro m hm hmi
  have hmm : m ∈ mergedRows deps rides := mem_firstRides hm
  have hdep : m.dep = d := by
    have h1 : m.dep ∈ deps :=
      dep_mem_of_mem_leftMergeRides (mem_mergedRows.mp hmm).1
    exact List.inj_on_of_nodup_map hnd h1 hd hmi
  obtain ⟨_, t, htt, hct⟩ := mem_mergedRows.mp hmm
  obtain ⟨r, hr, hru, hrt, _⟩ :=
    ride_of_mem_leftMergeRides (mem_mergedRows.mp hmm).1 htt
  refine ⟨hdep, r, hr, by rw [hru, hdep], ?_, by rw [htt, hrt], ?_⟩
  · rw [hrt, ← hdep]
    exact hct
  · intro r' hr' hu' ht'
    have hcand : (⟨d, some r'.rideTime, some r'.model⟩ : MergedRow) ∈ mergedRows deps rides :=
      mem_mergedRows.mpr ⟨leftMergeRides_complete hd hr' hu', r'.rideTime, rfl, ht'⟩
    have hle : rideLE m ⟨d, some r'.rideTime, some r'.model⟩ :=
      firstRides_min hm hcand (by rw [hmi])
    unfold rideLE rideTimeLE at hle
    rw [htt] at hle
    simp at hle
    rw [hrt]
    exact hle

/-!
### Claim theorems
-/

/-- C1: for every deployment that has at least one candidate ride sharing
its identity key (`Uuid`) with ride timestamp at or after the deployment
timestamp, the pipeline produces exactly one matched record for that
deployment, and the matched ride's timestamp equals the minimum ride
timestamp among all such qualifying candidates. -/
theorem first_ride_unique_and_minimal (deps : List DepRow) (rides : List RideRow)
    (d : DepRow) (hd : d ∈ deps)
    (hnd : (deps.map (fun x => x.deployIdx)).Nodup)
    (hq : ∃ r ∈ rides, r.uuid = d.uuid ∧ d.createdTime ≤ r.rideTime) :
    ((firstRides deps rides).filter
      (fun m => m.dep.deployIdx == d.deployIdx)).length = 1 ∧
    ∀ m ∈ firstRides deps rides, m.dep.deployIdx = d.deployIdx →
      ∃ r ∈ rides, r.uuid = d.uuid ∧ d.createdTime ≤ r.rideTime ∧
        m.rideTime = some r.rideTime ∧
        ∀ r' ∈ rides, r'.uuid = d.uuid → d.createdTime ≤ r'.rideTime →
          r.rideTime ≤ r'.rideTime := by
  obtain ⟨h1, h2⟩ := firstRides_spec deps rides d hd hnd hq
  exact ⟨h1, fun m hm hmi => (h2 m hm hmi).2⟩

theorem first_ride_unique_and_minimal_witness :
    (⟨0, some "U1", 36000, some "Park A"⟩ : DepRow) ∈
      ([⟨0, some "U1", 36000, some "Park A"⟩] : List DepRow) ∧
    ((firstRides [⟨0, some "U1", 36000, some "Park A"⟩]
        [⟨some "U1", 32400, "scooter"⟩, ⟨some "U1", 43200, "scooter"⟩]).filter
      (fun m => m.dep.deployIdx == (0 : Nat))).length = 1 ∧
    ∀ m ∈ firstRides [⟨0, some "U1", 36000, some "Park A"⟩]
        [⟨some "U1", 32400, "scooter"⟩, ⟨some "U1", 43200, "scooter"⟩],
      m.dep.deployIdx = 0 →
      ∃ r ∈ ([⟨some "U1", 32400, "scooter"⟩, ⟨some "U1", 43200, "scooter"⟩] : List RideRow),
        r.uuid = some "U1" ∧ (36000 : Int) ≤ r.rideTime ∧
        m.rideTime = some r.rideTime ∧
        ∀ r' ∈ ([⟨some "U1", 32400, "scooter"⟩, ⟨some "U1", 43200, "scooter"⟩] : List RideRow),
          r'.uuid = some "U1" → (36000 : Int) ≤ r'.rideTime →
          r.rideTime ≤ r'.rideTime := by
  have h := first_ride_unique_and_minimal
    [⟨0, some "U1", 36000, some "Park A"⟩]
    [⟨some "U1", 32400, "scooter"⟩, ⟨some "U1", 43200, "scooter"⟩]
    ⟨0, some "U1", 36000, some "Park A"⟩
    (by decide) (by decide) (by decide)
  exact ⟨by decide, h.1, h.2⟩

/-- C2: every matched record in the output table satisfies ride timestamp
≥ deployment timestamp, hence its elapsed duration (both in seconds and in
hours) is nonnegative, for any input deployments and rides. -/
theorem matched_record_nonneg_duration (deps : List DepRow) (rides : List RideRow)
    (row : ResRow) (hrow : row ∈ resultTable deps rides) :
    ∃ t, row.rideTime = some t ∧ row.createdTime ≤ t ∧
      row.ttf = some (t - row.createdTime) ∧ 0 ≤ t - row.createdTime ∧
      ∀ h, ttfHours row = some h → 0 ≤ h := by
  unfold resultTable at hrow
  rw [List.mem_map] at hrow
  obtain ⟨m, hm, hrow⟩ := hrow
  obtain ⟨hlm, t, htt, hct⟩ := mem_mergedRows.mp (mem_firstRides hm)
  subst hrow
  simp only [toResRow]
  refine ⟨t, by simp [htt], hct, by simp [htt], by omega, ?_⟩
  intro h hh
  unfold ttfHours at hh
  simp [htt] at hh
  rw [← hh]
  apply div_nonneg _ (by norm_num)
  have : (0 : Int) ≤ t - m.dep.createdTime := by omega
  exact_mod_cast this

theorem contains_iff_mem {l : List Nat} {i : Nat} : l.contains i = true ↔ i ∈ l := by
  simp [List.contains, List.elem_iff]

theorem length_filter_split {α : Type} (l : List α) (p c : α → Bool) :
    (l.filter p).length =
      (l.filter (fun a => p a && c a)).length +
        (l.filter (fun a => p a && !c a)).length := by
  induction l with
  | nil => simp
  | cons x xs ih =>
    by_cases hp : p x
    · by_cases hc : c x
      · simp [List.filter_cons, hp, hc, ih]
        omega
      · simp only [Bool.not_eq_true] at hc
        simp [List.filter_cons, hp, hc, ih]
        omega
    · simp only [Bool.not_eq_true] at hp
      simp [List.filter_cons, hp, ih]

theorem count_matched_eq (deps : List DepRow) (rides : List RideRow)
    (hnd : (deps.map (fun x => x.deployIdx)).Nodup) (q : Int → Bool) :
    (deps.filter (fun d =>
        q d.createdTime && (riddenIdxs deps rides).contains d.deployIdx)).length =
      ((firstRides deps rides).filter (fun m => q m.dep.createdTime)).length := by
  have h1nd : ((deps.filter (fun d =>
      q d.createdTime && (riddenIdxs deps rides).contains d.deployIdx)).map
        (fun x => x.deployIdx)).Nodup :=
    ((List.filter_sublist deps).map (fun x => x.deployIdx)).nodup hnd
  have h2nd : (((firstRides deps rides).filter
      (fun m => q m.dep.createdTime)).map (fun m => m.dep.deployIdx)).Nodup :=
    ((List.filter_sublist (firstRides deps rides)).map
      (fun m => m.dep.deployIdx)).nodup (firstRides_idx_nodup deps rides)
  have hlen1 : (deps.filter (fun d =>
      q d.createdTime && (riddenIdxs deps rides).contains d.deployIdx)).length =
      ((deps.filter (fun d =>
        q d.createdTime && (riddenIdxs deps rides).contains d.deployIdx)).map
          (fun x => x.deployIdx)).toFinset.card := by
    rw [List.toFinset_card_of_nodup h1nd, List.length_map]
  have hlen2 : ((firstRides deps rides).filter
      (fun m => q m.dep.createdTime)).length =
      (((firstRides deps rides).filter (fun m => q m.dep.createdTime)).map
        (fun m => m.dep.deployIdx)).toFinset.card := by
    rw [List.toFinset_card_of_nodup h2nd, List.length_map]
  rw [hlen1, hlen2]
  congr 1
  ext i
  simp only [List.mem_toFinset, List.mem_map, List.mem_filter]
  constructor
  · rintro ⟨d, ⟨hd, hpc⟩, hdi⟩
    rw [Bool.and_eq_true] at hpc
    have hridden : d.deployIdx ∈ riddenIdxs deps rides := contains_iff_mem.mp hpc.2
    unfold riddenIdxs at hridden
    rw [List.mem_map] at hridden
    obtain ⟨m, hm, hmi⟩ := hridden
    refine ⟨m, ⟨hm, ?_⟩, by rw [hmi, hdi]⟩
    have hdepm : m.dep ∈ deps :=
      dep_mem_of_mem_leftMergeRides (mem_mergedRows.mp (mem_firstRides hm)).1
    have : m.dep = d := List.inj_on_of_nodup_map hnd hdepm hd hmi
    rw [this]
    exact hpc.1
  · rintro ⟨m, ⟨hm, hq⟩, hmi⟩
    have hdepm : m.dep ∈ deps :=
      dep_mem_of_mem_leftMergeRides (mem_mergedRows.mp (mem_firstRides hm)).1
    refine ⟨m.dep, ⟨hdepm, ?_⟩, hmi⟩
    rw [Bool.and_eq_true]
    refine ⟨hq, contains_iff_mem.mpr ?_⟩
    unfold riddenIdxs
    rw [List.mem_map]
    exact ⟨m, hm, rfl⟩

theorem deps_partition_by (deps : List DepRow) (rides : List RideRow)
    (hnd : (deps.map (fun x => x.deployIdx)).Nodup) (q : Int → Bool) :
    (deps.filter (fun d => q d.createdTime)).length =
      ((firstRides deps rides).filter (fun m => q m.dep.createdTime)).length +
        (deps.filter (fun d =>
          q d.createdTime && !(riddenIdxs deps rides).contains d.deployIdx)).length := by
  rw [← count_matched_eq deps rides hnd q]
  exact length_filter_split deps _ _

/-- C4: the "no ride" set is exactly the set of deployments whose index is
not matched; total deployment count = matched count + no-ride count, both
as the KPI computes it (`total_deps - len(result)`) and as set sizes; and
the same partition holds for every date-filter window. -/
theorem deployment_count_partition (deps : List DepRow) (rides : List RideRow)
    (hnd : (deps.map (fun x => x.deployIdx)).Nodup) (s e : Int) :
    (∀ d ∈ deps, d ∈ noRide deps rides ↔ d.deployIdx ∉ riddenIdxs deps rides) ∧
    (deps.length : Int) = (resultTable deps rides).length + noRideCount deps rides ∧
    deps.length = (resultTable deps rides).length + (noRide deps rides).length ∧
    (depsFiltered s e deps).length =
      (resultFiltered s e deps rides).length +
        ((depsFiltered s e deps).filter
          (fun d => !(riddenIdxs deps rides).contains d.deployIdx)).length := by
  refine ⟨?_, ?_, ?_, ?_⟩
  · intro d hd
    unfold noRide
    rw [List.mem_filter]
    constructor
    · rintro ⟨_, hb⟩ hmem
      rw [contains_iff_mem.mpr hmem] at hb
      simp at hb
    · intro hni
      refine ⟨hd, ?_⟩
      have hfalse : (riddenIdxs deps rides).contains d.deployIdx = false := by
        cases hct : (riddenIdxs deps rides).contains d.deployIdx with
        | false => rfl
        | true => exact absurd (contains_iff_mem.mp hct) hni
      rw [hfalse]
      rfl
  · unfold noRideCount
    omega
  · have h3 := deps_partition_by deps rides hnd (fun _ => true)
    simp only [Bool.true_and, List.filter_true] at h3
    have hlen : (resultTable deps rides).length = (firstRides deps rides).length := by
      unfold resultTable
      rw [List.length_map]
    rw [hlen]
    unfold noRide
    exact h3
  · have h4 := deps_partition_by deps rides hnd
      (fun t => decide (s ≤ dateOf t) && decide (dateOf t ≤ e))
    have hres : (resultFiltered s e deps rides).length =
        ((firstRides deps rides).filter
          (fun m => decide (s ≤ dateOf m.dep.createdTime) &&
            decide (dateOf m.dep.createdTime ≤ e))).length := by
      unfold resultFiltered resultTable
      rw [List.filter_map, List.length_map]
      rfl
    have hsplit : ((depsFiltered s e deps).filter
        (fun d => !(riddenIdxs deps rides).contains d.deployIdx)).length =
        (deps.filter (fun d =>
          (decide (s ≤ dateOf d.createdTime) && decide (dateOf d.createdTime ≤ e)) &&
            !(riddenIdxs deps rides).contains d.deployIdx)).length := by
      unfold depsFiltered
      rw [List.filter_filter]
      exact congrArg List.length (List.filter_congr (fun d _ => Bool.and_comm _ _))
    rw [hres, hsplit]
    exact h4

theorem deployment_count_partition_witness :
    (([⟨0, some "uA", 0, some "A"⟩, ⟨1, some "uB", 0, some "B"⟩] : List DepRow).map
      (fun x => x.deployIdx)).Nodup ∧
    (∀ d ∈ ([⟨0, some "uA", 0, some "A"⟩, ⟨1, some "uB", 0, some "B"⟩] : List DepRow),
      d ∈ noRide [⟨0, some "uA", 0, some "A"⟩, ⟨1, some "uB", 0, some "B"⟩]
          [⟨some "uB", 10, "m"⟩] ↔
        d.deployIdx ∉ riddenIdxs [⟨0, some "uA", 0, some "A"⟩, ⟨1, some "uB", 0, some "B"⟩]
          [⟨some "uB", 10, "m"⟩]) ∧
    ((2 : Nat) : Int) =
      ((resultTable [⟨0, some "uA", 0, some "A"⟩, ⟨1, some "uB", 0, some "B"⟩]
        [⟨some "uB", 10, "m"⟩]).length : Int) +
        noRideCount [⟨0, some "uA", 0, some "A"⟩, ⟨1, some "uB", 0, some "B"⟩]
          [⟨some "uB", 10, "m"⟩] ∧
    (depsFiltered 0 0 [⟨0, some "uA", 0, some "A"⟩, ⟨1, some "uB", 0, some "B"⟩]).length =
      (resultFiltered 0 0 [⟨0, some "uA", 0, some "A"⟩, ⟨1, some "uB", 0, some "B"⟩]
        [⟨some "uB", 10, "m"⟩]).length +
        ((depsFiltered 0 0 [⟨0, some "uA", 0, some "A"⟩, ⟨1, some "uB", 0, some "B"⟩]).filter
          (fun d => !(riddenIdxs [⟨0, some "uA", 0, some "A"⟩, ⟨1, some "uB", 0, some "B"⟩]
            [⟨some "uB", 10, "m"⟩]).contains d.deployIdx)).length := by
  have h := deployment_count_partition
    [⟨0, some "uA", 0, some "A"⟩, ⟨1, some "uB", 0, some "B"⟩]
    [⟨some "uB", 10, "m"⟩] (by decide) 0 0
  exact ⟨by decide, h.1, h.2.1, h.2.2.2⟩

/-- C5: for every inclusive window `[start, end]` with `start ≤ end`, the
filtered deployment and matched sets contain exactly the records of the
unfiltered sets whose deployment date lies in the window. -/
theorem date_filter_window (s e : Int) (hse : s ≤ e) (deps : List DepRow)
    (rides : List RideRow) :
    (∀ d, d ∈ depsFiltered s e deps ↔
      d ∈ deps ∧ s ≤ dateOf d.createdTime ∧ dateOf d.createdTime ≤ e) ∧
    (∀ r, r ∈ resultFiltered s e deps rides ↔
      r ∈ resultTable deps rides ∧
        s ≤ dateOf r.createdTime ∧ dateOf r.createdTime ≤ e) := by
  constructor
  · intro d
    unfold depsFiltered
    rw [List.mem_filter, Bool.and_eq_true, decide_eq_true_eq, decide_eq_true_eq]
  · intro r
    unfold resultFiltered
    rw [List.mem_filter, Bool.and_eq_true, decide_eq_true_eq, decide_eq_true_eq]

theorem date_filter_window_witness :
    (0 : Int) ≤ 1 ∧
    (∀ d, d ∈ depsFiltered 0 1 [⟨0, some "u", 90000, some "A"⟩] ↔
      d ∈ ([⟨0, some "u", 90000, some "A"⟩] : List DepRow) ∧
        (0 : Int) ≤ dateOf d.createdTime ∧ dateOf d.createdTime ≤ 1) ∧
    (∀ r, r ∈ resultFiltered 0 1 [⟨0, some "u", 90000, some "A"⟩]
        [⟨some "u", 90060, "m"⟩] ↔
      r ∈ resultTable [⟨0, some "u", 90000, some "A"⟩] [⟨some "u", 90060, "m"⟩] ∧
        (0 : Int) ≤ dateOf r.createdTime ∧ dateOf r.createdTime ≤ 1) := by
  have h := date_filter_window 0 1 (by decide) [⟨0, some "u", 90000, some "A"⟩]
    [⟨some "u", 90060, "m"⟩]
  exact ⟨by decide, h.1, h.2⟩

/-- C8 as stated is false: a deployment whose `Uuid` is missing is matched
to a ride whose `Uuid` is missing (the merge matches missing keys), so a
matched record pairing a null-key deployment with a null-key ride exists. -/
theorem null_key_rows_do_match :
    (resultTable [⟨0, none, 0, none⟩] [⟨none, 10, "m"⟩]).length = 1 ∧
    ∀ r ∈ resultTable [⟨0, none, 0, none⟩] [⟨none, 10, "m"⟩],
      r.uuid = none ∧ r.rideTime = some 10 ∧ r.model = some "m" := by
  refine ⟨by decide, by decide⟩

/-- C8 amended: missing-key rows join exactly with rides whose key is
missing too (pandas `merge` matches NaN keys; never an error): a null-key
deployment with a qualifying null-key ride gets exactly one matched
record, whose ride is one of the null-key candidates. -/
theorem null_key_join_behavior (deps : List DepRow) (rides : List RideRow)
    (d : DepRow) (hd : d ∈ deps) (hnd : (deps.map (fun x => x.deployIdx)).Nodup)
    (hdnull : d.uuid = none)
    (hq : ∃ r ∈ rides, r.uuid = none ∧ d.createdTime ≤ r.rideTime) :
    ((firstRides deps rides).filter
      (fun m => m.dep.deployIdx == d.deployIdx)).length = 1 ∧
    ∀ m ∈ firstRides deps rides, m.dep.deployIdx = d.deployIdx →
      m.dep.uuid = none ∧
      ∃ r ∈ rides, r.uuid = none ∧ m.rideTime = some r.rideTime ∧
        d.createdTime ≤ r.rideTime := by
  obtain ⟨r, hr, hrn, hrt⟩ := hq
  have hq' : ∃ r ∈ rides, r.uuid = d.uuid ∧ d.createdTime ≤ r.rideTime :=
    ⟨r, hr, by rw [hdnull, hrn], hrt⟩
  obtain ⟨h1, h2⟩ := firstRides_spec deps rides d hd hnd hq'
  refine ⟨h1, fun m hm hmi => ?_⟩
  obtain ⟨hdep, r', hr', hu', ht', hmt, _⟩ := h2 m hm hmi
  exact ⟨by rw [hdep, hdnull], r', hr', by rw [hu', hdnull], hmt, ht'⟩

theorem null_key_join_behavior_witness :
    (⟨0, none, 0, none⟩ : DepRow) ∈ ([⟨0, none, 0, none⟩] : List DepRow) ∧
    ((firstRides [⟨0, none, 0, none⟩] [⟨none, 10, "m"⟩]).filter
      (fun m => m.dep.deployIdx == (0 : Nat))).length = 1 ∧
    ∀ m ∈ firstRides [⟨0, none, 0, none⟩] [⟨none, 10, "m"⟩],
      m.dep.deployIdx = 0 →
      m.dep.uuid = none ∧
      ∃ r ∈ ([⟨none, 10, "m"⟩] : List RideRow), r.uuid = none ∧
        m.rideTime = some r.rideTime ∧ (0 : Int) ≤ r.rideTime := by
  have h := null_key_join_behavior [⟨0, none, 0, none⟩] [⟨none, 10, "m"⟩]
    ⟨0, none, 0, none⟩ (by decide) (by decide) rfl (by decide)
  exact ⟨by decide, h.1, h.2⟩

theorem matched_record_nonneg_duration_witness :
    (⟨some "U1", 36000, some 43200, some "Park A", some "scooter", some 7200⟩ : ResRow) ∈
      resultTable [⟨0, some "U1", 36000, some "Park A"⟩]
        [⟨some "U1", 32400, "scooter"⟩, ⟨some "U1", 43200, "scooter"⟩] ∧
    ∃ t, (some (43200 : Int)) = some t ∧ (36000 : Int) ≤ t ∧
      (some (7200 : Int)) = some (t - 36000) ∧ (0 : Int) ≤ t - 36000 ∧
      ∀ h, ttfHours ⟨some "U1", 36000, some 43200, some "Park A", some "scooter", some 7200⟩ =
        some h → 0 ≤ h := by
  have h := matched_record_nonneg_duration
    [⟨0, some "U1", 36000, some "Park A"⟩]
    [⟨some "U1", 32400, "scooter"⟩, ⟨some "U1", 43200, "scooter"⟩]
    ⟨some "U1", 36000, some 43200, some "Park A", some "scooter", some 7200⟩
    (by decide)
  exact ⟨by decide, h⟩

/-- C3: bulk insert is idempotent.  Inserting a fresh record `r` and then
any record `r'` with the same primary key (even with different field
values) leaves the table exactly as after the first insert, with exactly
one row — `r`, unchanged — for that key. -/
theorem insert_or_ignore_idempotent (t : List DepRecord) (r r' : DepRecord)
    (hk : r'.id = r.id) (hfresh : depKeyExists t r.id = false) :
    insertDeps (insertDeps t [r]) [r'] = insertDeps t [r] ∧
    (insertDeps t [r]).filter (fun x => x.id == r.id) = [r] := by
  have h1 : insertDeps t [r] = t ++ [r] := by
    unfold insertDeps insertDep
    simp only [List.foldl_cons, List.foldl_nil]
    rw [hfresh]
    simp
  have hall : ∀ x ∈ t, (x.id == r.id) = false := by
    intro x hx
    cases hb : (x.id == r.id) with
    | false => rfl
    | true =>
      have hex : depKeyExists t r.id = true := by
        unfold depKeyExists
        rw [List.any_eq_true]
        exact ⟨x, hx, hb⟩
      exact Bool.noConfusion (hex.symm.trans hfresh)
  constructor
  · rw [h1]
    unfold insertDeps insertDep
    simp only [List.foldl_cons, List.foldl_nil]
    have hex : depKeyExists (t ++ [r]) r'.id = true := by
      unfold depKeyExists
      rw [List.any_eq_true]
      exact ⟨r, by simp, beq_iff_eq.mpr hk.symm⟩
    rw [hex]
    simp
  · rw [h1, List.filter_append]
    rw [List.filter_eq_nil_iff.mpr (by intro x hx; simp [hall x hx])]
    simp

theorem insert_or_ignore_idempotent_witness :
    (⟨"", "de", "berlin", "", "", "", "", "", "", "", "", "", "k1", 0, 0, 0⟩ :
      DepRecord).id = "k1" ∧
    depKeyExists [] "k1" = false ∧
    insertDeps (insertDeps []
        [⟨"", "ee", "tallinn", "", "", "", "", "", "", "", "", "", "k1", 0, 0, 0⟩])
      [⟨"", "de", "berlin", "", "", "", "", "", "", "", "", "", "k1", 0, 0, 0⟩] =
      insertDeps []
        [⟨"", "ee", "tallinn", "", "", "", "", "", "", "", "", "", "k1", 0, 0, 0⟩] ∧
    (insertDeps []
        [⟨"", "ee", "tallinn", "", "", "", "", "", "", "", "", "", "k1", 0, 0, 0⟩]).filter
      (fun x => x.id == "k1") =
      [⟨"", "ee", "tallinn", "", "", "", "", "", "", "", "", "", "k1", 0, 0, 0⟩] := by
  have h := insert_or_ignore_idempotent []
    ⟨"", "ee", "tallinn", "", "", "", "", "", "", "", "", "", "k1", 0, 0, 0⟩
    ⟨"", "de", "berlin", "", "", "", "", "", "", "", "", "", "k1", 0, 0, 0⟩
    rfl rfl
  exact ⟨rfl, rfl, h.1, h.2⟩

theorem find?_keyed_map (f : String → Nat) (z : String) (l : List String) :
    ((l.map (fun w => (w, f w))).find? (fun q => q.1 == z)) =
      if z ∈ l then some (z, f z) else none := by
  induction l with
  | nil => simp
  | cons x xs ih =>
    rw [List.map_cons]
    by_cases hx : x = z
    · subst hx
      rw [List.find?_cons_of_pos _ (by simp)]
      simp
    · rw [List.find?_cons_of_neg _ (by simpa using hx)]
      rw [ih]
      by_cases hz : z ∈ xs
      · rw [if_pos hz, if_pos (List.mem_cons.mpr (Or.inr hz))]
      · rw [if_neg hz, if_neg (by
          intro hc
          rcases List.mem_cons.mp hc with h | h
          · exact hx h.symm
          · exact hz h)]

/-- C6 amended: the per-zone table's rows are keyed by the zones of the
matched (filtered) records — `spot_avg.merge(spot_count, how="left")` —
so a zone appears only when it has at least one matched record in the
window, and each appearing row's count column is the zone's filtered
deployment count (missing when that count is zero). -/
theorem spot_table_rows (deps : List DepRow) (rides : List RideRow) (s e : Int)
    (z : String) (a : ℚ) (c : Option Nat)
    (hmem : (z, a, c) ∈ spotDf (depsFiltered s e deps)
      (resultFiltered s e deps rides)) :
    (∃ r ∈ resultFiltered s e deps rides, r.zone = some z) ∧
    c = (if ((depsFiltered s e deps).filter (fun d => d.zone == some z)).length = 0
         then none
         else some ((depsFiltered s e deps).filter
           (fun d => d.zone == some z)).length) := by
  unfold spotDf at hmem
  rw [List.mem_map] at hmem
  obtain ⟨p, hp, heq⟩ := hmem
  rw [Prod.mk.injEq] at heq
  obtain ⟨hz1, heq2⟩ := heq
  rw [Prod.mk.injEq] at heq2
  obtain ⟨-, hc⟩ := heq2
  constructor
  · unfold spotAvg at hp
    rw [List.mem_map] at hp
    obtain ⟨z', hz', hpz⟩ := hp
    have hzz : z' = z := by
      rw [← hz1, ← hpz]
    rw [List.mem_dedup, List.mem_filterMap] at hz'
    obtain ⟨r, hr, hrz⟩ := hz'
    exact ⟨r, hr, by rw [hrz, hzz]⟩
  · rw [← hc, hz1]
    unfold spotCount
    rw [find?_keyed_map]
    have hiff : (z ∈ ((depsFiltered s e deps).filterMap (fun d => d.zone)).dedup) ↔
        ((depsFiltered s e deps).filter
          (fun d => d.zone == some z)).length ≠ 0 := by
      rw [List.mem_dedup, List.mem_filterMap]
      constructor
      · rintro ⟨d, hd, hdz⟩ h0
        rw [List.length_eq_zero] at h0
        have hdm : d ∈ (depsFiltered s e deps).filter
            (fun d => d.zone == some z) :=
          List.mem_filter.mpr ⟨hd, beq_iff_eq.mpr hdz⟩
        rw [h0] at hdm
        simp at hdm
      · intro hn
        have hne : (depsFiltered s e deps).filter
            (fun d => d.zone == some z) ≠ [] := by
          intro h
          exact hn (by rw [h]; rfl)
        obtain ⟨d, hd⟩ := List.exists_mem_of_ne_nil _ hne
        rw [List.mem_filter] at hd
        exact ⟨d, hd.1, beq_iff_eq.mp hd.2⟩
    by_cases hzin : z ∈ ((depsFiltered s e deps).filterMap (fun d => d.zone)).dedup
    · rw [if_pos hzin, if_neg (hiff.mp hzin)]
      rfl
    · rw [if_neg hzin, if_pos ?_]
      · rfl
      · by_contra hn
        exact hzin (hiff.mpr hn)

theorem spot_table_rows_witness :
    (("B",
      listMean (((resultFiltered 0 0 exDeps exRides).filter
        (fun r => r.zone == some "B")).filterMap ttfHours),
      (some 1 : Option Nat)) ∈
        spotDf (depsFiltered 0 0 exDeps) (resultFiltered 0 0 exDeps exRides)) ∧
    (∃ r ∈ resultFiltered 0 0 exDeps exRides, r.zone = some "B") ∧
    (some 1 : Option Nat) =
      (if ((depsFiltered 0 0 exDeps).filter
          (fun d => d.zone == some "B")).length = 0
       then none
       else some ((depsFiltered 0 0 exDeps).filter
         (fun d => d.zone == some "B")).length) := by
  have hfind : ((spotCount (depsFiltered 0 0 exDeps)).find?
      (fun q => q.1 == "B")).map (fun q => q.2) = (some 1 : Option Nat) := by decide
  have hmem : ("B",
      listMean (((resultFiltered 0 0 exDeps exRides).filter
        (fun r => r.zone == some "B")).filterMap ttfHours),
      ((spotCount (depsFiltered 0 0 exDeps)).find?
        (fun q => q.1 == "B")).map (fun q => q.2)) ∈
        spotDf (depsFiltered 0 0 exDeps) (resultFiltered 0 0 exDeps exRides) := by
    unfold spotDf
    refine List.mem_map.mpr ⟨("B",
      listMean (((resultFiltered 0 0 exDeps exRides).filter
        (fun r => r.zone == some "B")).filterMap ttfHours)), ?_, rfl⟩
    unfold spotAvg
    exact List.mem_map.mpr ⟨"B", by decide, rfl⟩
  rw [hfind] at hmem
  have h := spot_table_rows exDeps exRides 0 0 "B" _ _ hmem
  exact ⟨hmem, h.1, h.2⟩

/-- C6 as stated is false: zone "A" has a deployment in the filtered set
and zero matched records, yet it is absent from the per-zone table (the
left-merge keeps only zones of the matched set). -/
theorem zero_match_zone_omitted :
    ((depsFiltered 0 0 exDeps).filter (fun d => d.zone == some "A")).length = 1 ∧
    (∀ r ∈ resultFiltered 0 0 exDeps exRides, r.zone ≠ some "A") ∧
    "A" ∉ (spotDf (depsFiltered 0 0 exDeps)
      (resultFiltered 0 0 exDeps exRides)).map (fun p => p.1) := by
  refine ⟨by decide, by decide, by decide⟩

/-- C7 as stated is false: with `start > end` the error is reported and the
request halted, but the three full-dataset KPI metrics are rendered before
the validation, so data-derived output IS displayed for the request. -/
theorem invalid_range_shows_metrics :
    (3 : Int) < 5 ∧
    (dashboardPage exDeps exRides 5 3).any
      (fun i => match i with | UIItem.metric _ _ => true | _ => false) = true ∧
    (dashboardPage exDeps exRides 5 3).any
      (fun i => match i with | UIItem.errorMsg _ => true | _ => false) = true := by
  refine ⟨by decide, by decide, by decide⟩

/-- C7 amended: with `start > end` the error is reported and processing is
halted before any *filtered* output: the page renders exactly the three
full-dataset KPI metrics followed by the error message, and no chart or
table item at all. -/
theorem invalid_range_halts (deps : List DepRow) (rides : List RideRow)
    (s e : Int) (hse : e < s) :
    dashboardPage deps rides s e =
      [UIItem.metric "Total Deployments" ((deps.length : Int) : ℚ),
       UIItem.metric "Deployments with No Ride" ((noRideCount deps rides : ℚ)),
       UIItem.metric "Avg Time to First Ride (h)"
         (listMean ((resultTable deps rides).filterMap ttfHours)),
       UIItem.errorMsg "❌ Start date must be before or equal to end date."] ∧
    ∀ i ∈ dashboardPage deps rides s e,
      (∃ l v, i = UIItem.metric l v) ∨
        i = UIItem.errorMsg "❌ Start date must be before or equal to end date." := by
  have h1 : dashboardPage deps rides s e =
      [UIItem.metric "Total Deployments" ((deps.length : Int) : ℚ),
       UIItem.metric "Deployments with No Ride" ((noRideCount deps rides : ℚ)),
       UIItem.metric "Avg Time to First Ride (h)"
         (listMean ((resultTable deps rides).filterMap ttfHours)),
       UIItem.errorMsg "❌ Start date must be before or equal to end date."] := by
    unfold dashboardPage
    rw [if_pos hse]
    rfl
  refine ⟨h1, ?_⟩
  intro i hi
  rw [h1] at hi
  rcases List.mem_cons.mp hi with h | hi
  · exact Or.inl ⟨_, _, h⟩
  rcases List.mem_cons.mp hi with h | hi
  · exact Or.inl ⟨_, _, h⟩
  rcases List.mem_cons.mp hi with h | hi
  · exact Or.inl ⟨_, _, h⟩
  rcases List.mem_cons.mp hi with h | hi
  · exact Or.inr h
  · simp at hi

theorem invalid_range_halts_witness :
    (3 : Int) < 5 ∧
    dashboardPage exDeps exRides 5 3 =
      [UIItem.metric "Total Deployments" ((exDeps.length : Int) : ℚ),
       UIItem.metric "Deployments with No Ride" ((noRideCount exDeps exRides : ℚ)),
       UIItem.metric "Avg Time to First Ride (h)"
         (listMean ((resultTable exDeps exRides).filterMap ttfHours)),
       UIItem.errorMsg "❌ Start date must be before or equal to end date."] ∧
    ∀ i ∈ dashboardPage exDeps exRides 5 3,
      (∃ l v, i = UIItem.metric l v) ∨
        i = UIItem.errorMsg "❌ Start date must be before or equal to end date." := by
  have h := invalid_range_halts exDeps exRides 5 3 (by decide)
  exact ⟨by decide, h.1, h.2⟩

/-- C10: a non-empty path whose final component has no extension gets
`.db` appended (after `~` expansion); a path that already has an
extension is used verbatim; a path naming an existing directory is
rejected — against the not-yet-normalized path — before the extension
normalization. -/
theorem db_path_normalization (home input : String) (isDir : String → Bool) :
    (expanduser home input ≠ "" → isDir (expanduser home input) = false →
      splitextExt (expanduser home input) = "" →
      processDbPath home isDir input =
        Except.ok (expanduser home input ++ ".db")) ∧
    (expanduser home input ≠ "" → isDir (expanduser home input) = false →
      splitextExt (expanduser home input) ≠ "" →
      processDbPath home isDir input = Except.ok (expanduser home input)) ∧
    (expanduser home input ≠ "" → isDir (expanduser home input) = true →
      processDbPath home isDir input = Except.error (expanduser home input)) := by
  refine ⟨?_, ?_, ?_⟩
  · intro h1 h2 h3
    unfold processDbPath normalizeDbPath
    rw [if_neg (fun hc => Bool.noConfusion (h2.symm.trans hc.2))]
    rw [if_pos ⟨h1, h3⟩]
  · intro h1 h2 h3
    unfold processDbPath normalizeDbPath
    rw [if_neg (fun hc => Bool.noConfusion (h2.symm.trans hc.2))]
    rw [if_neg (fun hc => h3 hc.2)]
  · intro h1 h2
    unfold processDbPath
    rw [if_pos ⟨h1, h2⟩]

theorem db_path_normalization_witness :
    expanduser "/home/u" "~/data/store" = "/home/u/data/store" ∧
    splitextExt "/home/u/data/store" = "" ∧
    processDbPath "/home/u" (fun _ => false) "~/data/store" =
      Except.ok "/home/u/data/store.db" ∧
    splitextExt "/home/u/box.db" ≠ "" ∧
    processDbPath "/home/u" (fun _ => false) "~/box.db" =
      Except.ok "/home/u/box.db" ∧
    processDbPath "/home/u" (fun p => p == "/home/u/data") "~/data" =
      Except.error "/home/u/data" := by
  have ha := (db_path_normalization "/home/u" "~/data/store" (fun _ => false)).1
    (by decide) rfl (by decide)
  have hb := (db_path_normalization "/home/u" "~/box.db" (fun _ => false)).2.1
    (by decide) rfl (by decide)
  have hc := (db_path_normalization "/home/u" "~/data"
      (fun p => p == "/home/u/data")).2.2 (by decide) (by decide)
  refine ⟨by decide, by decide, ?_, by decide, ?_, ?_⟩
  · rw [ha]
    rfl
  · rw [hb]
    decide
  · rw [hc]
    decide

end DeploymentEff

